import Mathlib

set_option maxRecDepth 8000

/-!
Formal model of the `m4` macro processor in `m4.c`, as a shallow embedding.

Modelling conventions:
* Bytes are natural numbers `0 .. 255`; `char` is taken as an unsigned byte.
* `size_t` values are natural numbers; every place the C code can wrap or
  overflow is modelled explicitly against `SIZE_MAX = 2^64 - 1`.
* C strings are `List Nat`; reading a byte buffer as a C string stops at the
  first NUL byte (`cstr`).
* Heap allocation outcomes are an explicit oracle on the buffer type used for
  the pushback functions; the engine-level interpreter assumes allocation
  succeeds (an allocation failure simply aborts the C program).
-/

/-- `SIZE_MAX` for the 64-bit `size_t` used by the source. -/
def SIZE_MAX : Nat := 2 ^ 64 - 1

/-- `#define HASH_TABLE_SIZE 16384`. -/
def HASH_TABLE_SIZE : Nat := 16384

/-- `#define INIT_BUF_SIZE 512`. -/
def INIT_BUF_SIZE : Nat := 512

/-- `AOF(a, b)`: `size_t` addition overflow test, `(a) > SIZE_MAX - (b)`. -/
def AOF (a b : Nat) : Bool := decide (SIZE_MAX - b < a)

/-- `MOF(a, b)`: `size_t` multiplication overflow test,
`(a) && (b) > SIZE_MAX / (a)`. -/
def MOF (a b : Nat) : Bool := decide (a ≠ 0 ∧ SIZE_MAX / a < b)

/-- C-locale `isalpha` on a byte. -/
def isalphaB (c : Nat) : Bool := (65 ≤ c && c ≤ 90) || (97 ≤ c && c ≤ 122)

/-- C-locale `isdigit` on a byte. -/
def isdigitB (c : Nat) : Bool := 48 ≤ c && c ≤ 57

/-- C-locale `isalnum` on a byte. -/
def isalnumB (c : Nat) : Bool := isalphaB c || isdigitB c

/-- C-locale `isgraph` on a byte. -/
def isgraphB (c : Nat) : Bool := 33 ≤ c && c ≤ 126

/-- Read a byte buffer as a C string: the bytes before the first NUL. -/
def cstr (l : List Nat) : List Nat := l.takeWhile (fun c => c ≠ 0)

/-- Bytes of a Lean string literal (used to transcribe C string literals). -/
def strBytes (s : String) : List Nat := s.data.map Char.toNat

/-- Decimal rendering of a `size_t` value, as `snprintf("%lu")` produces. -/
def numBytes (n : Nat) : List Nat := strBytes (Nat.repr n)

/-!
## `struct buf` with explicit capacity and allocation oracle

`struct buf` holds an array `a`, fill index `i` and capacity `s`.  We model
the filled bytes `a[0..i-1]` as `data` (so `i = data.length`), the capacity
as `s`, and the outcome of each successive `realloc`/`malloc` call through
the oracle `alloc` together with a call counter `cnt`.
-/

structure Buf where
  data : List Nat
  s : Nat
  alloc : Nat → Bool
  cnt : Nat

/-- `BUF_FREE_SIZE(b) = b->s - b->i`. -/
def BUF_FREE_SIZE (b : Buf) : Nat := b.s - b.data.length

/-- `grow_buf(b, will_use)`: geometric growth with overflow checks.
`none` models returning `1` (failure); the buffer is unchanged in that case. -/
def grow_buf (b : Buf) (will_use : Nat) : Option Buf :=
  if will_use ≤ BUF_FREE_SIZE b then some b
  else if MOF b.s 2 then none
  else
    let new_s := b.s * 2
    if AOF new_s will_use then none
    else
      let new_s := new_s + will_use
      if b.alloc b.cnt then some { b with s := new_s, cnt := b.cnt + 1 }
      else none

/-- `ungetch(b, ch)`: append one byte at the fill index, growing on demand.
`none` models returning `EOF`. -/
def ungetch (b : Buf) (ch : Nat) : Option Buf :=
  if b.data.length = b.s then
    match grow_buf b 1 with
    | none => none
    | some b2 => some { b2 with data := b2.data ++ [ch] }
  else some { b with data := b.data ++ [ch] }

/-- The loop body of `ungetstr`: push the given bytes in order (the C loop
walks `s` from its last byte down to its first, so it is called on the
reversed string).  Returns `(failed, buffer)`; on failure the bytes already
pushed remain in the buffer, exactly as in the source. -/
def ungetstrRev (b : Buf) : List Nat → Bool × Buf
  | [] => (false, b)
  | c :: r =>
    match ungetch b c with
    | none => (true, b)
    | some b2 => ungetstrRev b2 r

/-- `ungetstr(b, s)`: push the bytes of `s` so that the first byte of `s` is
the next byte read (the top of the stack).  Returns `(failed, buffer)`. -/
def ungetstr (b : Buf) (s : List Nat) : Bool × Buf :=
  ungetstrRev b s.reverse

/-- The bytes of the stream in the order they will be read
(`getch` pops at `a[--i]`, i.e. from the end of `data`). -/
def bufReads (b : Buf) : List Nat := b.data.reverse

/-!
## The symbol table

A fixed-bucket chained hash table; `struct entry` chains are Lean lists
(in chain order, head of list = head of chain), and the bucket array is
represented sparsely by an association list from bucket index to chain.
-/

structure Entry where
  name : List Nat
  defn : Option (List Nat)
  deriving DecidableEq

/-- The bucket array `struct entry **ht` of `HASH_TABLE_SIZE` chain heads,
represented sparsely: the association list holds the chains of the buckets
that have been written, keyed by bucket index; every other bucket is empty
(`NULL`), exactly as after `calloc`. -/
abbrev Ht : Type := List (Nat × List Entry)

/-- `calloc`ed table: every bucket empty. -/
def emptyHt : Ht := []

/-- The chain of bucket `h` (`*(ht + h)`). -/
def getBucket (ht : Ht) (h : Nat) : List Entry :=
  ((ht.find? (fun p => p.1 == h)).map Prod.snd).getD []

/-- Overwrite the chain head of bucket `h` (`*(ht + h) = ...`). -/
def setBucket : Ht → Nat → List Entry → Ht
  | [], h, v => [(h, v)]
  | (k, w) :: r, h, v =>
    if k = h then (h, v) :: r else (k, w) :: setBucket r h v

/-- `hash_str`: djb2 (`h = h * 33 ^ c` on `size_t`) modulo the bucket count. -/
def hash_str (s : List Nat) : Nat :=
  (s.foldl (fun h c => ((h * 33) % (SIZE_MAX + 1)) ^^^ c) 5381) % HASH_TABLE_SIZE

/-- `lookup_entry`: linear scan of the bucket chain for the first name match. -/
def lookup_entry (ht : Ht) (name : List Nat) : Option Entry :=
  (getBucket ht (hash_str name)).find? (fun e => e.name == name)

/-- Update the definition of the first chain entry whose name matches
(the `e->def = t` branch of `upsert_entry`). -/
def updateFirst (name : List Nat) (defn : Option (List Nat)) :
    List Entry → List Entry
  | [] => []
  | e :: r =>
    if e.name = name then { e with defn := defn } :: r
    else e :: updateFirst name defn r

/-- `upsert_entry`: insert a new entry at the head of its bucket chain, or
replace the definition of the existing entry.  Allocation is assumed to
succeed here (failure aborts the program). -/
def upsert_entry (ht : Ht) (name : List Nat) (defn : Option (List Nat)) : Ht :=
  match lookup_entry ht name with
  | none =>
    let h := hash_str name
    setBucket ht h ({ name := name, defn := defn } :: getBucket ht h)
  | some _ =>
    let h := hash_str name
    setBucket ht h (updateFirst name defn (getBucket ht h))

/-- Splice the first matching entry out of the tail of a chain
(the `prev->next = e->next` branch of `delete_entry`). -/
def spliceOut (name : List Nat) : List Entry → Option (List Entry)
  | [] => none
  | e :: r =>
    if e.name = name then some r
    else (spliceOut name r).map (e :: ·)

/-- `delete_entry`: find the first matching entry and unlink it.
When the match is at the head of the chain (`prev == NULL`), the source sets
the bucket head to `NULL`, discarding the rest of the chain.  `none` models
returning `1` (name not found). -/
def delete_entry (ht : Ht) (name : List Nat) : Option Ht :=
  let h := hash_str name
  match getBucket ht h with
  | [] => none
  | e :: rest =>
    if e.name = name then some (setBucket ht h [])
    else
      match spliceOut name rest with
      | none => none
      | some rest2 => some (setBucket ht h (e :: rest2))

/-- The built-in macro names, in the order `main` inserts them
(`ESYSCMD_MAKETEMP` is `0`, so `esyscmd` and `maketemp` are excluded). -/
def builtin_names : List String :=
  ["define", "undefine", "changequote", "divert", "dumpdef", "errprint",
   "ifdef", "ifelse", "include", "len", "index", "translit", "substr",
   "dnl", "divnum", "undivert", "incr", "htdist", "dirsep",
   "add", "mult", "sub", "div", "mod"]

/-- The symbol table after `main`'s initial built-in insertions: each
built-in is upserted with a `NULL` definition. -/
def initHt : Ht :=
  builtin_names.foldl (fun t n => upsert_entry t (strBytes n) none) emptyHt

/-!
## The tokenizer

`getword` reads one token from the input stream.  The input stream is a byte
stack whose head is the next byte read (`getch` pops the head, `ungetch`
pushes a new head, `ungetstr s` pushes `s` so its first byte is read first).
We run with command-line files loaded, so `read_stdin` is `0` and end of
input happens exactly when the stack is empty.  Token buffer allocation is
assumed to succeed.  The trailing NUL terminator is not stored in the token;
readers of the token as a C string use `cstr`.
-/

/-- A first byte that can start a macro name: `isalpha(x) || x == '_'`. -/
def isIdentStart (c : Nat) : Bool := isalphaB c || c = 95

/-- A byte that can continue a macro name: `isalnum(x) || x == '_'`. -/
def isIdentCont (c : Nat) : Bool := isalnumB c || c = 95

/-- The identifier-collection loop of `getword`: keep consuming identifier
bytes; at the first non-identifier byte, push it back and stop.  Reaching end
of input inside the loop makes `getword` return `1` with no token (`none`):
the collected bytes are discarded. -/
def collectIdent (acc : List Nat) : List Nat → Option (List Nat × List Nat)
  | [] => none
  | y :: rest =>
    if isIdentCont y then collectIdent (acc ++ [y]) rest
    else some (acc, y :: rest)

/-- `getword`: produce one token and the rest of the input, or `none` at end
of input (including end of input in the middle of an identifier). -/
def getword (input : List Nat) : Option (List Nat × List Nat) :=
  match input with
  | [] => none
  | x :: rest =>
    if isIdentStart x then collectIdent [x] rest
    else some ([x], rest)

/-- Repeated `getword` with explicit fuel: the token list produced from the
input, plus the leftover input at the point `getword` signals end of input.
A non-empty leftover is exactly a final identifier cut off by end of input.
`input.length` is always enough fuel, since every token consumes at least
one byte. -/
def tokAux : Nat → List Nat → List (List Nat) × List Nat
  | 0, l => ([], l)
  | fuel + 1, l =>
    match getword l with
    | none => ([], l)
    | some (tok, l2) =>
      let (ts, r) := tokAux fuel l2
      (tok :: ts, r)

/-- The token stream of an input, with the discarded leftover. -/
def tokenize (l : List Nat) : List (List Nat) × List Nat :=
  tokAux l.length l

/-- `WS(s)`: a token that is a single whitespace character. -/
def isWS (s : List Nat) : Bool :=
  s = [32] || s = [9] || s = [10] || s = [13]

/-- `EAT_WS`: read tokens until a non-whitespace token, then push that token
back (`ungetstr(input, NTS)` pushes its C-string form).  `none` models
`READ_TOKEN` reaching end of input, which jumps to shutdown.  Fuel as in
`tokAux`. -/
def eatWS : Nat → List Nat → Option (List Nat)
  | 0, _ => none
  | fuel + 1, l =>
    match getword l with
    | none => none
    | some (tok, l2) =>
      if isWS (cstr tok) then eatWS fuel l2
      else some (cstr tok ++ l2)

/-- `DNL`: read tokens up to and including the next `"\n"` token.  `none`
models `READ_TOKEN` reaching end of input. -/
def dnlConsume : Nat → List Nat → Option (List Nat)
  | 0, _ => none
  | fuel + 1, l =>
    match getword l with
    | none => none
    | some (tok, l2) =>
      if cstr tok = [10] then some l2
      else dnlConsume fuel l2

/-!
## `str_to_num` and the arithmetic built-ins
-/

/-- The digit-accumulation loop of `str_to_num`, with the source's overflow
checks on `n * 10` and `n + (ch - '0')`. -/
def str_to_num_go : List Nat → Nat → Option Nat
  | [], n => some n
  | ch :: r, n =>
    if isdigitB ch then
      if MOF n 10 then none
      else
        let n2 := n * 10
        if AOF n2 (ch - 48) then none
        else str_to_num_go r (n2 + (ch - 48))
    else none

/-- `str_to_num(s, &num)`: parse an unsigned decimal number; fails on an
empty string, a non-digit byte, or `size_t` overflow. -/
def str_to_num (s : List Nat) : Option Nat :=
  if s = [] then none else str_to_num_go s 0

/-- The shared shape of the arithmetic built-in loops: fold over the
argument indices in `ks`, skipping empty arguments, parsing each non-empty
argument with `str_to_num` and combining with `f` (which performs the
operation together with its overflow/underflow/zero checks). -/
def arith_fold (arg : Nat → List Nat) (f : Nat → Nat → Except String Nat)
    (emsg : String) : List Nat → Nat → Except String Nat
  | [], w => .ok w
  | k :: ks, w =>
    if arg k = [] then arith_fold arg f emsg ks w
    else
      match str_to_num (arg k) with
      | none => .error emsg
      | some n =>
        match f w n with
        | .error e => .error e
        | .ok w2 => arith_fold arg f emsg ks w2

/-- One `add` step: `if (AOF(w, n)) ... w += n`. -/
def add_step (w n : Nat) : Except String Nat :=
  if AOF w n then .error "add: Integer overflow" else .ok (w + n)

/-- One `mult` step: `if (MOF(w, n)) ... w *= n`. -/
def mult_step (w n : Nat) : Except String Nat :=
  if MOF w n then .error "mult: Integer overflow" else .ok (w * n)

/-- One `sub` step: `if (n > w) ... w -= n`. -/
def sub_step (w n : Nat) : Except String Nat :=
  if w < n then .error "sub: Integer underflow" else .ok (w - n)

/-- One `div` step: `if (!n) ... w /= n`. -/
def div_step (w n : Nat) : Except String Nat :=
  if n = 0 then .error "div: Divide by zero" else .ok (w / n)

/-- One `mod` step: `if (!n) ... w %= n`. -/
def mod_step (w n : Nat) : Except String Nat :=
  if n = 0 then .error "mod: Modulo by zero" else .ok (w % n)

/-- `add`: sum arguments 1..9 from 0 with overflow checks. -/
def add_bi (arg : Nat → List Nat) : Except String Nat :=
  arith_fold arg add_step "add: Invalid number" (List.range' 1 9) 0

/-- `mult`: multiply arguments 1..9 from 1 with overflow checks. -/
def mult_bi (arg : Nat → List Nat) : Except String Nat :=
  arith_fold arg mult_step "mult: Invalid number" (List.range' 1 9) 1

/-- `sub`: argument 1 is required; subtract arguments 2..9 with underflow
checks. -/
def sub_bi (arg : Nat → List Nat) : Except String Nat :=
  if arg 1 = [] then .error "sub: Argument 1 must be used"
  else
    match str_to_num (arg 1) with
    | none => .error "sub: Invalid number"
    | some w => arith_fold arg sub_step "sub: Invalid number" (List.range' 2 8) w

/-- `div`: argument 1 is required; divide by arguments 2..9, failing on a
zero divisor. -/
def div_bi (arg : Nat → List Nat) : Except String Nat :=
  if arg 1 = [] then .error "div: Argument 1 must be used"
  else
    match str_to_num (arg 1) with
    | none => .error "div: Invalid number"
    | some w => arith_fold arg div_step "div: Invalid number" (List.range' 2 8) w

/-- `mod`: argument 1 is required; reduce by arguments 2..9 modulo, failing
on a zero divisor. -/
def mod_bi (arg : Nat → List Nat) : Except String Nat :=
  if arg 1 = [] then .error "mod: Argument 1 must be used"
  else
    match str_to_num (arg 1) with
    | none => .error "mod: Invalid number"
    | some w => arith_fold arg mod_step "mod: Invalid number" (List.range' 2 8) w

/-- Specification-side fold: given the list of (already filtered, non-empty)
argument strings, parse each and combine.  Used to state that the loops
fold over the non-empty arguments only. -/
def fold_parsed (f : Nat → Nat → Except String Nat) (emsg : String) :
    List (List Nat) → Nat → Except String Nat
  | [], w => .ok w
  | v :: vs, w =>
    match str_to_num v with
    | none => .error emsg
    | some n =>
      match f w n with
      | .error e => .error e
      | .ok w2 => fold_parsed f emsg vs w2

/-!
## `sub_args`, `strip_def`, `translit`, `strstr`
-/

/-- `sub_args`: walk the definition snapshot; `$d` with `d` a non-zero digit
is replaced by the collected contents of argument buffer `d` (nothing if the
buffer is NULL) and the digit is eaten; any other `$` is copied and its
successor is processed normally.  `arg_buf d = none` models a NULL buffer. -/
def sub_args (arg_buf : List (Option (List Nat))) : List Nat → List Nat
  | [] => []
  | [36] => [36]
  | 36 :: h :: rest2 =>
    if isdigitB h && h ≠ 48 then
      (arg_buf.getD (h - 48) none).getD [] ++ sub_args arg_buf rest2
    else 36 :: sub_args arg_buf (h :: rest2)
  | ch :: rest => ch :: sub_args arg_buf rest

/-- `strip_def`: copy the definition, deleting `$d` pairs where `d` is a
non-zero digit. -/
def strip_def : List Nat → List Nat
  | [] => []
  | [36] => [36]
  | 36 :: h :: rest2 =>
    if isdigitB h && h ≠ 48 then strip_def rest2
    else 36 :: strip_def (h :: rest2)
  | ch :: rest => ch :: strip_def rest

/-- `UCHAR_MAX` on the 8-bit-`char` hosts the source targets. -/
def UCHAR_MAX : Nat := 255

/-- The `translit` map as declared: `int map[UCHAR_MAX]`, an array of
`UCHAR_MAX` (255) slots, after the initialization loop
`for (k = 0; k < UCHAR_MAX; k++) map[k] = -1`. -/
def translit_init_map : List Int := List.replicate UCHAR_MAX (-1)

/-- Write `map[i] := v`; `none` when `i` is outside the array bounds. -/
def mapWrite (m : List Int) (i : Nat) (v : Int) : Option (List Int) :=
  if i < m.length then some (m.set i v) else none

/-- Read `map[i]`; `none` when `i` is outside the array bounds. -/
def mapRead (m : List Int) (i : Nat) : Option Int := m.get? i

/-- The first `translit` mapping loop:
`while ((uc = *p++) && (uc2 = *q++)) if (map[uc] == -1) map[uc] = uc2;`.
Returns the updated map and the rest of `from` after the loop, with the
current byte `uc` at its head when the loop stopped because `to` ran out
(that is exactly the state the second loop continues from).  `none` models
an out-of-bounds array access. -/
def translit_pairs (m : List Int) : List Nat → List Nat → Option (List Int × List Nat)
  | [], _ => some (m, [])
  | uc :: p, [] => some (m, uc :: p)
  | uc :: p, uc2 :: q =>
    match mapRead m uc with
    | none => none
    | some cur =>
      if cur = -1 then
        match mapWrite m uc (Int.ofNat uc2) with
        | none => none
        | some m2 => translit_pairs m2 p q
      else translit_pairs m p q

/-- The second `translit` mapping loop: map every remaining `from` byte to
delete (`'\0'`), unconditionally. -/
def translit_delete (m : List Int) : List Nat → Option (List Int)
  | [] => some m
  | uc :: p =>
    match mapWrite m uc 0 with
    | none => none
    | some m2 => translit_delete m2 p

/-- Build the `translit` map for the `from`/`to` argument pair, starting
from the freshly initialized map. -/
def translit_build (fromS toS : List Nat) : Option (List Int) :=
  match translit_pairs translit_init_map fromS toS with
  | none => none
  | some (m, restFrom) => translit_delete m restFrom

/-- Apply the `translit` map to the subject string: `-1` passes the byte
through, `0` deletes it, any other value replaces it. -/
def translit_apply (m : List Int) : List Nat → Option (List Nat)
  | [] => some []
  | uc :: p =>
    match mapRead m uc with
    | none => none
    | some x =>
      match translit_apply m p with
      | none => none
      | some out =>
        if x = -1 then some (uc :: out)
        else if x = 0 then some out
        else some (x.toNat :: out)

/-- The whole `translit` computation on its three arguments. -/
def translit_bi (s fromS toS : List Nat) : Option (List Nat) :=
  match translit_build fromS toS with
  | none => none
  | some m => translit_apply m s

/-- `strstr(s, t)`: byte offset of the first occurrence of `t` in `s`, if
any (an empty `t` occurs at offset 0). -/
def strstrIdx (s t : List Nat) : Option Nat :=
  (List.range (s.length + 1)).find? (fun i => t.isPrefixOf (s.drop i))

/-!
## The macro engine

The state of `main`'s loop.  The input stream is the byte stack described at
`getword`.  The `output` pointer of the source is always recomputed by
`SET_OUTPUT` whenever the stack or the active diversion changes, so it
always denotes the argument buffer of the top frame when the stack is
non-empty and the active diversion otherwise; we model it by computing that
sink at each write (`putOut`).  `fwrite` to standard output is assumed to
succeed, and allocation is assumed to succeed.  We run with the input
preloaded from the command-line files, so `read_stdin` is `0`.
-/

/-- `struct mcall`: one stacked macro call.  `arg_buf` is the array of ten
argument-buffer pointers; `none` models a NULL pointer and index 0 is never
used. -/
structure Frame where
  name : List Nat
  fdef : Option (List Nat)
  bracket_depth : Nat
  act_arg : Nat
  arg_buf : List (Option (List Nat))
  deriving DecidableEq

/-- Read `arg_buf[k]`. -/
def argBuf (top : Frame) (k : Nat) : Option (List Nat) :=
  top.arg_buf.getD k none

structure M4State where
  input : List Nat
  quote_on : Bool
  quote_depth : Nat
  left_quote : Nat
  right_quote : Nat
  ht : Ht
  stack : List Frame
  diversion : List (List Nat)
  act_div : Nat
  sout : List Nat
  serr : List (List Nat)
  fsys : List Nat → Option (List Nat)

/-- `DIV(n)`: the contents of diversion buffer `n`. -/
def DIV (s : M4State) (n : Nat) : List Nat :=
  s.diversion.getD n []

/-- `put_str(output, s)`: append to the current sink, which `SET_OUTPUT`
keeps equal to the top frame's active argument buffer when the call stack is
non-empty and to the active diversion otherwise. -/
def putOut (s : M4State) (str : List Nat) : M4State :=
  match s.stack with
  | [] =>
    { s with diversion :=
        s.diversion.set s.act_div (DIV s s.act_div ++ str) }
  | top :: rest =>
    let ab2 := top.arg_buf.set top.act_arg
      (some ((argBuf top top.act_arg).getD [] ++ str))
    { s with stack := { top with arg_buf := ab2 } :: rest }

/-- `OUT_DIV(n)`: write diversion `n` to standard output and empty it. -/
def OUT_DIV (s : M4State) (n : Nat) : M4State :=
  { s with sout := s.sout ++ DIV s n,
           diversion := s.diversion.set n [] }

/-- `UNDIVERT_ALL`: `for (k = 0; k < 10; k++) OUT_DIV(k)`. -/
def UNDIVERT_ALL (s : M4State) : M4State :=
  (List.range 10).foldl OUT_DIV s

/-- `EMSG(m)`: write a diagnostic line to standard error. -/
def emsg (s : M4State) (m : String) : M4State :=
  { s with serr := s.serr ++ [strBytes m] }

/-- The `end_of_input` label: the shutdown checks and final flush, paired
with the process exit status. -/
def endOfInput (s : M4State) : Nat × M4State :=
  match s.stack with
  | _ :: _ => (1, emsg s "Input finished without unwinding the stack")
  | [] =>
    if s.quote_on then (1, emsg s "Input finished without exiting quotes")
    else (0, UNDIVERT_ALL s)

/-- Result of one iteration of the `m4` loop: continue, jump to
`end_of_input`, or `QUIT` (fatal error, exit status 1). -/
inductive StepRes where
  | cont (s : M4State)
  | eoi (s : M4State)
  | quit (s : M4State)

/-- `EQUIT(m)`. -/
def equit (s : M4State) (m : String) : StepRes :=
  .quit (emsg s m)

/-- `ISMACRO(s)`: a name that starts like a macro name and resolves in the
symbol table (the `&&` short-circuits, so no lookup happens otherwise). -/
def isMacroL (ht : Ht) (sN : List Nat) : Option Entry :=
  if isIdentStart (sN.headD 0) then lookup_entry ht sN else none

/-- `DIVNUM`: push the active diversion number (`-1` for diversion 10). -/
def DIVNUM (s : M4State) : M4State :=
  { s with input :=
      (if s.act_div = 10 then strBytes "-1" else numBytes s.act_div) ++ s.input }

/-- The `htdist` report: a histogram of chain lengths. -/
def htdist_lines (ht : Ht) : List (List Nat) :=
  let counts := (List.range HASH_TABLE_SIZE).map (fun k => (getBucket ht k).length)
  let freq : Nat → Nat :=
    fun j => (counts.filter (fun c => (if c < 100 then c else 100) = j)).length
  strBytes "entries_per_bucket number_of_buckets" ::
    ((List.range 100).filterMap
      (fun k => if freq k ≠ 0 then some (numBytes k ++ [32] ++ numBytes (freq k))
                else none)
     ++ (if freq 100 ≠ 0 then [strBytes ">=100 " ++ numBytes (freq 100)] else []))

def htdistOut (s : M4State) : M4State :=
  { s with serr := s.serr ++ htdist_lines s.ht }

/-- `ARG(n)`: the collected argument `n` read as a C string (the empty
string for a NULL buffer). -/
def ARG (top : Frame) (k : Nat) : List Nat :=
  cstr ((argBuf top k).getD [])

/-- The loop of `terminate_args`: NUL-terminate the present argument
buffers `1, 2, ...` up to the first NULL one (they are allocated densely,
so this reaches exactly the allocated ones; the fuel `9` covers indices
1..9). -/
def tArgsGo (ab : List (Option (List Nat))) : Nat → Nat → List (Option (List Nat))
  | _, 0 => ab
  | j, fuel + 1 =>
    match ab.getD j none with
    | none => ab
    | some b => tArgsGo (ab.set j (some (b ++ [0]))) (j + 1) fuel

/-- `terminate_args`. -/
def terminate_args (top : Frame) : Frame :=
  { top with arg_buf := tArgsGo top.arg_buf 1 9 }

/-- `buf_dump_buf(DIV(dst), DIV(src))`: append `src`'s contents to `dst`
and empty `src`. -/
def buf_dump_buf (s : M4State) (dst src : Nat) : M4State :=
  { s with diversion :=
      (s.diversion.set dst (DIV s dst ++ DIV s src)).set src [] }

/-- `PROCESS_BI_NO_ARGS`: dispatch for a built-in used without parentheses.
`ts` is the token string `TS`. -/
def processBiNoArgs (s : M4State) (ts : List Nat) : StepRes :=
  if ts = strBytes "dnl" then
    match dnlConsume s.input.length s.input with
    | none => .eoi { s with input := [] }
    | some l2 => .cont { s with input := l2 }
  else if ts = strBytes "divnum" then .cont (DIVNUM s)
  else if ts = strBytes "undivert" then
    if s.act_div ≠ 0 then
      equit s "undivert: Can only call from diversion 0 when called without arguments"
    else .cont (UNDIVERT_ALL s)
  else if ts = strBytes "divert" then .cont { s with act_div := 0 }
  else if ts = strBytes "htdist" then .cont (htdistOut s)
  else if ts = strBytes "dirsep" then .cont { s with input := strBytes "/" ++ s.input }
  else .cont (putOut s ts)

/-- `PROCESS_BI_WITH_ARGS`: dispatch for a built-in called with
parentheses, on the (NUL-terminated) argument buffers of the top frame.
`.cont` means the macro body completed (the caller then pops the frame). -/
def processBiWithArgs (s : M4State) (top : Frame) : StepRes :=
  let A := ARG top
  if top.name = strBytes "define" then
    .cont { s with ht := upsert_entry s.ht (A 1) (some (A 2)) }
  else if top.name = strBytes "undefine" then
    match delete_entry s.ht (A 1) with
    | none => .quit s
    | some ht2 => .cont { s with ht := ht2 }
  else if top.name = strBytes "changequote" then
    if (A 1).length ≠ 1 ∨ (A 2).length ≠ 1 ∨ (A 1).headD 0 = (A 2).headD 0 ∨
        ¬ isgraphB ((A 1).headD 0) ∨ ¬ isgraphB ((A 2).headD 0) ∨
        (A 1).headD 0 = 40 ∨ (A 2).headD 0 = 40 ∨
        (A 1).headD 0 = 41 ∨ (A 2).headD 0 = 41 ∨
        (A 1).headD 0 = 44 ∨ (A 2).headD 0 = 44 then
      equit s "changequote: quotes must be different single graph chars that cannot a comma or parentheses"
    else .cont { s with left_quote := (A 1).headD 0, right_quote := (A 2).headD 0 }
  else if top.name = strBytes "divert" then
    if (A 1).length = 1 ∧ isdigitB ((A 1).headD 0) then
      .cont { s with act_div := (A 1).headD 0 - 48 }
    else if A 1 = strBytes "-1" then .cont { s with act_div := 10 }
    else equit s "divert: Diversion number must be 0 to 9 or -1"
  else if top.name = strBytes "dumpdef" then
    .cont { s with serr := s.serr ++ (List.range' 1 9).filterMap (fun k =>
      match isMacroL s.ht (A k) with
      | some e => some (A k ++ strBytes ": " ++ (e.defn.getD (strBytes "built-in")))
      | none => if A k ≠ [] then some (A k ++ strBytes ": undefined") else none) }
  else if top.name = strBytes "errprint" then
    .cont { s with serr := s.serr ++ (List.range' 1 9).filterMap (fun k =>
      if A k ≠ [] then some (A k) else none) }
  else if top.name = strBytes "ifdef" then
    .cont { s with input :=
      (if (isMacroL s.ht (A 1)).isSome then A 2 else A 3) ++ s.input }
  else if top.name = strBytes "ifelse" then
    .cont { s with input :=
      (if A 1 = A 2 then A 3 else A 4) ++ s.input }
  else if top.name = strBytes "include" then
    match s.fsys (A 1) with
    | none => .quit (emsg s "include: Failed to include file")
    | some content => .cont { s with input := content ++ s.input }
  else if top.name = strBytes "len" then
    .cont { s with input := numBytes (A 1).length ++ s.input }
  else if top.name = strBytes "index" then
    .cont { s with input :=
      (match strstrIdx (A 1) (A 2) with
       | none => strBytes "-1"
       | some i => numBytes i) ++ s.input }
  else if top.name = strBytes "translit" then
    match translit_bi (A 1) (A 2) (A 3) with
    | none => .quit s
    | some out => .cont { s with input := out ++ s.input }
  else if top.name = strBytes "substr" then
    if (A 1).length ≠ 0 then
      match str_to_num (A 2), str_to_num (A 3) with
      | some w, some n =>
        if w < (A 1).length then
          if AOF n 1 then .quit s
          else .cont { s with input := ((A 1).drop w).take n ++ s.input }
        else .cont s
      | _, _ => equit s "substr: Invalid index or length"
    else .cont s
  else if top.name = strBytes "undivert" then
    if s.act_div = 0 then
      .cont ((List.range' 1 9).foldl (fun st k =>
        if (A k).length = 1 ∧ isdigitB ((A k).headD 0) ∧ (A k).headD 0 ≠ 48 then
          OUT_DIV st ((A k).headD 0 - 48)
        else st) s)
    else
      .cont ((List.range' 1 9).foldl (fun st k =>
        if (A k).length = 1 ∧ isdigitB ((A k).headD 0) ∧ (A k).headD 0 ≠ 48 ∧
            (A k).headD 0 - 48 ≠ st.act_div then
          buf_dump_buf st st.act_div ((A k).headD 0 - 48)
        else st) s)
  else if top.name = strBytes "dnl" then
    match dnlConsume s.input.length s.input with
    | none => .eoi { s with input := [] }
    | some l2 => .cont { s with input := l2 }
  else if top.name = strBytes "divnum" then .cont (DIVNUM s)
  else if top.name = strBytes "incr" then
    match str_to_num (A 1) with
    | none => equit s "incr: Invalid number"
    | some n =>
      if AOF n 1 then equit s "incr: Integer overflow"
      else .cont { s with input := numBytes (n + 1) ++ s.input }
  else if top.name = strBytes "htdist" then .cont (htdistOut s)
  else if top.name = strBytes "dirsep" then
    .cont { s with input := strBytes "/" ++ s.input }
  else if top.name = strBytes "add" then
    match add_bi A with
    | .error m => equit s m
    | .ok w => .cont { s with input := numBytes w ++ s.input }
  else if top.name = strBytes "mult" then
    match mult_bi A with
    | .error m => equit s m
    | .ok w => .cont { s with input := numBytes w ++ s.input }
  else if top.name = strBytes "sub" then
    match sub_bi A with
    | .error m => equit s m
    | .ok w => .cont { s with input := numBytes w ++ s.input }
  else if top.name = strBytes "div" then
    match div_bi A with
    | .error m => equit s m
    | .ok w => .cont { s with input := numBytes w ++ s.input }
  else if top.name = strBytes "mod" then
    match mod_bi A with
    | .error m => equit s m
    | .ok w => .cont { s with input := numBytes w ++ s.input }
  else .cont s

/-- Apply a function to the top stack frame, if any. -/
def mapTop (s : M4State) (f : Frame → Frame) : M4State :=
  match s.stack with
  | [] => s
  | t :: r => { s with stack := f t :: r }

/-- One iteration of the `m4` loop: flush diversion 0, read a token, and
dispatch exactly as the source's `if`/`else if` chain does. -/
def step (s0 : M4State) : StepRes :=
  let s := OUT_DIV s0 0
  match getword s.input with
  | none => .eoi { s with input := [] }
  | some (tok, inp1) =>
    let s := { s with input := inp1 }
    let ts := cstr tok
    if ts = [s.left_quote] then
      let s := if s.quote_on then s else { s with quote_on := true }
      let s := if s.quote_depth ≠ 0 then putOut s ts else s
      .cont { s with quote_depth := (s.quote_depth + 1) % (SIZE_MAX + 1) }
    else if ts = [s.right_quote] then
      let s := if 1 < s.quote_depth then putOut s ts else s
      let d := if s.quote_depth = 0 then SIZE_MAX else s.quote_depth - 1
      let s := { s with quote_depth := d }
      .cont (if d = 0 then { s with quote_on := false } else s)
    else if s.quote_on then
      .cont (putOut s ts)
    else
      match isMacroL s.ht ts with
      | some e =>
        match getword s.input with
        | none => .eoi { s with input := [] }
        | some (ntok, inp2) =>
          let s := { s with input := inp2 }
          let nts := cstr ntok
          if nts = [40] then
            let fr : Frame :=
              { name := ts, fdef := e.defn, bracket_depth := 1, act_arg := 1,
                arg_buf := [none, some [], none, none, none,
                            none, none, none, none, none] }
            let s := { s with stack := fr :: s.stack }
            match eatWS s.input.length s.input with
            | none => .eoi { s with input := [] }
            | some inp3 => .cont { s with input := inp3 }
          else
            let s := { s with input := nts ++ s.input }
            match e.defn with
            | none => processBiNoArgs s ts
            | some d => .cont { s with input := strip_def d ++ s.input }
      | none =>
        match s.stack with
        | [] => .cont (putOut s ts)
        | top :: rest =>
          if ts = [41] ∧ top.bracket_depth = 1 then
            let top2 := { top with bracket_depth := top.bracket_depth - 1 }
            let s2 := { s with stack := top2 :: rest }
            match top2.fdef with
            | none =>
              let top3 := terminate_args top2
              let s3 := { s2 with stack := top3 :: rest }
              match processBiWithArgs s3 top3 with
              | .cont s4 => .cont { s4 with stack := s4.stack.drop 1 }
              | .eoi s4 => .eoi s4
              | .quit s4 => .quit s4
            | some d =>
              let inp3 := cstr (sub_args top2.arg_buf d) ++ s2.input
              .cont { s2 with stack := rest, input := inp3 }
          else if ts = [44] ∧ top.bracket_depth = 1 then
            if top.act_arg = 9 then equit s "Macro call has too many arguments"
            else
              let ab2 := top.arg_buf.set (top.act_arg + 1) (some [])
              let top2 := { top with act_arg := top.act_arg + 1, arg_buf := ab2 }
              let s2 := { s with stack := top2 :: rest }
              match eatWS s2.input.length s2.input with
              | none => .eoi { s2 with input := [] }
              | some l2 => .cont { s2 with input := l2 }
          else if ts = [41] ∧ 1 < top.bracket_depth then
            .cont (mapTop (putOut s ts)
              (fun t => { t with bracket_depth := t.bracket_depth - 1 }))
          else if ts = [40] then
            .cont (mapTop (putOut s ts)
              (fun t => { t with bracket_depth := t.bracket_depth + 1 }))
          else .cont (putOut s ts)

/-- Run the `m4` loop with the given iteration fuel.  `some (code, t)`
is process termination with exit status `code` and final state `t`;
`none` means the fuel ran out. -/
def run : Nat → M4State → Option (Nat × M4State)
  | 0, _ => none
  | fuel + 1, s =>
    match step s with
    | .cont s2 => run fuel s2
    | .eoi s2 => some (endOfInput s2)
    | .quit s2 => some (1, s2)

/-- The engine state at the top of `main`'s loop, with the command-line
files already loaded into the input stream (`read_stdin = 0`): all
diversions empty, diversion 0 active, default quotes, empty call stack, the
built-ins in the symbol table.  No regular files are available to
`include`. -/
def initState (l : List Nat) : M4State :=
  { input := l, quote_on := false, quote_depth := 0,
    left_quote := 96, right_quote := 39,
    ht := initHt, stack := [],
    diversion := List.replicate 11 [], act_div := 0,
    sout := [], serr := [], fsys := (fun _ => none) }

/-!
## Predicates and fixtures used by the verification statements
-/

/-- The symbol-table invariant claimed by the specification: every stored
entry has a non-empty name. -/
abbrev HtInv (ht : Ht) : Prop :=
  ∀ p ∈ ht, ∀ e ∈ p.2, e.name ≠ ([] : List Nat)

/-- All stored entries have an absent definition (mark built-ins). -/
abbrev HtAllBuiltin (ht : Ht) : Prop :=
  ∀ p ∈ ht, ∀ e ∈ p.2, e.defn = (none : Option (List Nat))

/-- A call's argument vector assembled from a list of argument strings
(1-based, as the `ARG(k)` accesses are). -/
def argList (l : List String) : Nat → List Nat :=
  fun k => (l.map strBytes).getD (k - 1) []

/-- A buffer of capacity 1 whose next allocation fails. -/
def c2Buf : Buf := { data := [], s := 1, alloc := (fun _ => false), cnt := 0 }

/-- A buffer with room to spare. -/
def c2BufOk : Buf := { data := [], s := 4, alloc := (fun _ => true), cnt := 0 }

/-- An engine state that is inside diversion 1 and holds text in
diversion 2. -/
def c7State : M4State :=
  { initState [] with
      act_div := 1,
      diversion := (List.replicate 11 []).set 2 (strBytes "hi") }

/-- Whether a loop-iteration result is the fatal `QUIT` outcome. -/
def stepResIsQuit : StepRes → Bool
  | .quit _ => true
  | _ => false

/-- The state carried by a loop-iteration result. -/
def stepResState : StepRes → M4State
  | .cont s => s
  | .eoi s => s
  | .quit s => s

/-!
## General helper lemmas
-/

theorem getD_set_ne {α : Type} (l : List α) (i k : Nat) (v d : α)
    (h : i ≠ k) : (l.set i v).getD k d = l.getD k d := by
  induction l generalizing i k with
  | nil => simp
  | cons a r ih =>
    cases i with
    | zero => cases k with
      | zero => exact absurd rfl h
      | succ k2 => simp [List.set]
    | succ i2 => cases k with
      | zero => simp [List.set]
      | succ k2 => simpa [List.set] using ih i2 k2 (by omega)

theorem getD_set_self {α : Type} (l : List α) (i : Nat) (v d : α)
    (h : i < l.length) : (l.set i v).getD i d = v := by
  induction l generalizing i with
  | nil => simp at h
  | cons a r ih =>
    cases i with
    | zero => simp [List.set]
    | succ i2 => simpa [List.set] using ih i2 (by simpa using h)

theorem cstr_eq_self {l : List Nat} (h : (0 : Nat) ∉ l) : cstr l = l := by
  unfold cstr
  rw [List.takeWhile_eq_self_iff]
  intro x hx
  simp only [decide_eq_true_eq]
  intro hx0
  exact h (hx0 ▸ hx)

/-!
## C2: atomicity of `ungetstr`
-/

theorem grow_buf_some_data {b : Buf} {w : Nat} {b2 : Buf}
    (h : grow_buf b w = some b2) : b2.data = b.data := by
  unfold grow_buf at h
  by_cases h1 : w ≤ BUF_FREE_SIZE b
  · simp only [if_pos h1, Option.some.injEq] at h
    rw [← h]
  · simp only [if_neg h1] at h
    by_cases h2 : MOF b.s 2 = true
    · simp [h2] at h
    · simp only [h2, if_false, Bool.false_eq_true] at h
      by_cases h3 : AOF (b.s * 2) w = true
      · simp [h3] at h
      · simp only [h3, if_false, Bool.false_eq_true] at h
        by_cases h4 : b.alloc b.cnt = true
        · simp only [h4, if_true, Option.some.injEq] at h
          rw [← h]
        · simp [h4] at h

theorem ungetch_some_data {b : Buf} {ch : Nat} {b2 : Buf}
    (h : ungetch b ch = some b2) : b2.data = b.data ++ [ch] := by
  unfold ungetch at h
  split_ifs at h with h1
  · cases hg : grow_buf b 1 with
    | none => rw [hg] at h; cases h
    | some b3 =>
      rw [hg] at h
      cases h
      simp [grow_buf_some_data hg]
  · cases h; rfl

theorem ungetstrRev_spec (l : List Nat) (b : Buf) :
    ((ungetstrRev b l).1 = false → (ungetstrRev b l).2.data = b.data ++ l) ∧
    ((ungetstrRev b l).1 = true →
      ∃ j, j < l.length ∧ (ungetstrRev b l).2.data = b.data ++ l.take j) := by
  induction l generalizing b with
  | nil =>
    refine ⟨fun _ => by simp [ungetstrRev], fun h => ?_⟩
    simp [ungetstrRev] at h
  | cons c r ih =>
    unfold ungetstrRev
    cases hg : ungetch b c with
    | none =>
      refine ⟨fun h => by simp at h, fun _ => ⟨0, by simp⟩⟩
    | some b2 =>
      have hd := ungetch_some_data hg
      refine ⟨fun hf => ?_, fun ht => ?_⟩
      · rw [(ih b2).1 hf, hd]; simp
      · obtain ⟨j, hj, he⟩ := (ih b2).2 ht
        exact ⟨j + 1, by simpa using hj, by rw [he, hd]; simp⟩

/-- C2, amended: `ungetstr` either succeeds, leaving the readable stream
equal to `s` followed by the prior contents, or fails on allocation
failure, leaving the readable stream equal to some suffix `s.drop k`
(`k ≥ 1`, possibly all of `s` dropped) followed by the unchanged prior
contents: the prior contents survive, but the bytes already pushed stay. -/
theorem claim_c2_amended (b : Buf) (s : List Nat) :
    ((ungetstr b s).1 = false → bufReads (ungetstr b s).2 = s ++ bufReads b) ∧
    ((ungetstr b s).1 = true →
      ∃ k, 1 ≤ k ∧ k ≤ s.length ∧
        bufReads (ungetstr b s).2 = s.drop k ++ bufReads b) := by
  have hspec := ungetstrRev_spec s.reverse b
  unfold ungetstr bufReads
  constructor
  · intro hf
    rw [hspec.1 hf]
    simp
  · intro htq
    obtain ⟨j, hj, he⟩ := hspec.2 htq
    rw [List.length_reverse] at hj
    refine ⟨s.length - j, by omega, by omega, ?_⟩
    rw [he]
    simp only [List.reverse_append]
    congr 1
    rw [← List.rtake_eq_reverse_take_reverse, List.rtake]

/-- C2, counterexample to the claim as stated: pushing `"ab"` onto a full
one-byte buffer whose reallocation fails pushes the `'b'` and then fails, so
the failed call leaves the stream changed (readable contents `[98]`, not the
empty prior contents). -/
theorem claim_c2_counterexample :
    (ungetstr c2Buf [97, 98]).1 = true ∧
    bufReads (ungetstr c2Buf [97, 98]).2 = [98] ∧
    bufReads c2Buf = [] ∧ ([98] : List Nat) ≠ [] := by
  refine ⟨by decide, by decide, by decide, by decide⟩

/-- Witness for `claim_c2_amended` at concrete buffers. -/
theorem claim_c2_amended_witness :
    (bufReads (ungetstr c2BufOk [97]).2 = [97] ++ bufReads c2BufOk) ∧
    (∃ k, 1 ≤ k ∧ k ≤ 2 ∧
      bufReads (ungetstr c2Buf [97, 98]).2 = [97, 98].drop k ++ bufReads c2Buf) := by
  constructor
  · exact (claim_c2_amended c2BufOk [97]).1 (by decide)
  · exact (claim_c2_amended c2Buf [97, 98]).2 (by decide)

/-!
## C1: `delete_entry` drops the chain tail when deleting the bucket head
-/

/-- C1: the names `"x"` and `"axa"` hash to the same bucket.  After
inserting both (so `"axa"` is the chain head), deleting `"axa"` sets the
bucket head to `NULL`, and the untouched entry `"x"` — still carrying its
prior definition — is no longer reachable by `lookup_entry`.  This
contradicts the specification, which says `delete` unlinks only the
matching entry; the source's own specification marks this as the bug to
fix by splicing the head to the deleted entry's successor. -/
theorem claim_c1_code_bug :
    hash_str (strBytes "axa") = hash_str (strBytes "x") ∧
    (lookup_entry
        (upsert_entry (upsert_entry emptyHt (strBytes "x") (some (strBytes "one")))
          (strBytes "axa") (some (strBytes "two")))
        (strBytes "x")
      = some { name := strBytes "x", defn := some (strBytes "one") }) ∧
    ((delete_entry
        (upsert_entry (upsert_entry emptyHt (strBytes "x") (some (strBytes "one")))
          (strBytes "axa") (some (strBytes "two")))
        (strBytes "axa")).isSome = true) ∧
    (lookup_entry
        ((delete_entry
            (upsert_entry (upsert_entry emptyHt (strBytes "x") (some (strBytes "one")))
              (strBytes "axa") (some (strBytes "two")))
            (strBytes "axa")).getD emptyHt)
        (strBytes "x")
      = none) := by
  refine ⟨by decide, by decide, by decide, by decide⟩

/-!
## C8: the symbol-table invariant
-/

theorem mem_setBucket {ht : Ht} {h : Nat} {v : List Entry} {p : Nat × List Entry}
    (hp : p ∈ setBucket ht h v) : p.2 = v ∨ p ∈ ht := by
  induction ht with
  | nil =>
    simp [setBucket] at hp
    left
    rw [hp]
  | cons q r ih =>
    obtain ⟨k, w⟩ := q
    simp only [setBucket] at hp
    by_cases hk : k = h
    · rw [if_pos hk] at hp
      rcases List.mem_cons.mp hp with rfl | hr
      · left; rfl
      · right; exact List.mem_cons_of_mem _ hr
    · rw [if_neg hk] at hp
      rcases List.mem_cons.mp hp with rfl | hr
      · right; exact List.mem_cons_self _ _
      · rcases ih hr with hv | hm
        · left; exact hv
        · right; exact List.mem_cons_of_mem _ hm

theorem mem_getBucket {ht : Ht} {h : Nat} {e : Entry}
    (he : e ∈ getBucket ht h) : ∃ p ∈ ht, e ∈ p.2 := by
  unfold getBucket at he
  cases hf : ht.find? (fun p => p.1 == h) with
  | none => rw [hf] at he; simp at he
  | some p =>
    rw [hf] at he
    simp at he
    exact ⟨p, List.mem_of_find?_eq_some hf, he⟩

theorem updateFirst_mem {name : List Nat} {defn : Option (List Nat)} :
    ∀ {l : List Entry} {e : Entry}, e ∈ updateFirst name defn l →
      ∃ e0 ∈ l, e.name = e0.name := by
  intro l
  induction l with
  | nil => intro e he; simp [updateFirst] at he
  | cons a r ih =>
    intro e he
    unfold updateFirst at he
    by_cases ha : a.name = name
    · rw [if_pos ha] at he
      rcases List.mem_cons.mp he with rfl | hr
      · exact ⟨a, List.mem_cons_self _ _, rfl⟩
      · exact ⟨e, List.mem_cons_of_mem _ hr, rfl⟩
    · rw [if_neg ha] at he
      rcases List.mem_cons.mp he with rfl | hr
      · exact ⟨e, List.mem_cons_self _ _, rfl⟩
      · obtain ⟨e0, he0, hn⟩ := ih hr
        exact ⟨e0, List.mem_cons_of_mem _ he0, hn⟩

theorem spliceOut_subset {name : List Nat} :
    ∀ {l l2 : List Entry}, spliceOut name l = some l2 → l2 ⊆ l := by
  intro l
  induction l with
  | nil => intro l2 h; simp [spliceOut] at h
  | cons a r ih =>
    intro l2 h
    unfold spliceOut at h
    by_cases ha : a.name = name
    · rw [if_pos ha] at h
      cases h
      exact List.subset_cons_self _ _
    · rw [if_neg ha] at h
      cases hs : spliceOut name r with
      | none => rw [hs] at h; cases h
      | some r2 =>
        rw [hs] at h
        cases h
        intro x hx
        rcases List.mem_cons.mp hx with rfl | hr
        · exact List.mem_cons_self _ _
        · exact List.mem_cons_of_mem _ (ih hs hr)

theorem upsert_pres_inv (ht : Ht) (n : List Nat) (d : Option (List Nat))
    (hinv : HtInv ht) (hn : n ≠ []) : HtInv (upsert_entry ht n d) := by
  unfold upsert_entry
  cases hl : lookup_entry ht n with
  | none =>
    intro p hp e he
    rcases mem_setBucket hp with hv | hmem
    · rw [hv] at he
      rcases List.mem_cons.mp he with rfl | hb
      · exact hn
      · obtain ⟨q, hq, heq⟩ := mem_getBucket hb
        exact hinv q hq e heq
    · exact hinv p hmem e he
  | some _ =>
    intro p hp e he
    rcases mem_setBucket hp with hv | hmem
    · rw [hv] at he
      obtain ⟨e0, he0, hname⟩ := updateFirst_mem he
      obtain ⟨q, hq, heq⟩ := mem_getBucket he0
      rw [hname]
      exact hinv q hq e0 heq
    · exact hinv p hmem e he

theorem delete_pres_inv (ht : Ht) (n : List Nat) (ht2 : Ht)
    (hinv : HtInv ht) (hdel : delete_entry ht n = some ht2) : HtInv ht2 := by
  simp only [delete_entry] at hdel
  split at hdel
  · cases hdel
  next e rest hb =>
    by_cases hname : e.name = n
    · rw [if_pos hname] at hdel
      cases hdel
      intro p hp x hx
      rcases mem_setBucket hp with hv | hmem
      · rw [hv] at hx; simp at hx
      · exact hinv p hmem x hx
    · rw [if_neg hname] at hdel
      cases hs : spliceOut n rest with
      | none => rw [hs] at hdel; cases hdel
      | some rest2 =>
        rw [hs] at hdel
        cases hdel
        intro p hp x hx
        rcases mem_setBucket hp with hv | hmem
        · rw [hv] at hx
          have hx2 : x ∈ getBucket ht (hash_str n) := by
            rw [hb]
            rcases List.mem_cons.mp hx with rfl | hr
            · exact List.mem_cons_self _ _
            · exact List.mem_cons_of_mem _ (spliceOut_subset hs hr)
          obtain ⟨q, hq, heq⟩ := mem_getBucket hx2
          exact hinv q hq x heq
        · exact hinv p hmem x hx

/-- C8, amended: the invariant that every stored entry's name is non-empty
is preserved by `upsert_entry` whenever the inserted name is non-empty (the
initial built-in insertions all use non-empty names, but `define` with an
empty first argument violates it), and by `delete_entry`; the initial table
satisfies it, and its entries all carry an absent definition, which is what
marks them as built-ins. -/
theorem claim_c8_amended :
    (∀ (ht : Ht) (n : List Nat) (d : Option (List Nat)),
      HtInv ht → n ≠ [] → HtInv (upsert_entry ht n d)) ∧
    (∀ (ht : Ht) (n : List Nat) (ht2 : Ht),
      HtInv ht → delete_entry ht n = some ht2 → HtInv ht2) ∧
    HtInv initHt ∧ HtAllBuiltin initHt :=
  ⟨upsert_pres_inv, delete_pres_inv, by decide, by decide⟩

/-- C8, counterexample to the claim as stated: `define` with an empty first
argument performs `upsert_entry(ht, "", def)`, which stores an entry whose
name is the empty string, breaking the invariant. -/
theorem claim_c8_counterexample :
    HtInv initHt ∧
    lookup_entry (upsert_entry initHt [] (some (strBytes "x"))) [] =
      some { name := [], defn := some (strBytes "x") } ∧
    ¬ HtInv (upsert_entry initHt [] (some (strBytes "x"))) := by
  refine ⟨by decide, by decide, by decide⟩

/-- Witness for `claim_c8_amended` at concrete tables. -/
theorem claim_c8_amended_witness :
    HtInv (upsert_entry emptyHt (strBytes "a") none) ∧
    HtInv ((delete_entry (upsert_entry emptyHt (strBytes "a") none)
      (strBytes "a")).getD emptyHt) := by
  constructor
  · exact claim_c8_amended.1 emptyHt (strBytes "a") none (by decide) (by decide)
  · exact claim_c8_amended.2.1 (upsert_entry emptyHt (strBytes "a") none)
      (strBytes "a") _ (by decide) (by decide)

/-!
## C9: the arithmetic built-ins
-/

theorem arith_fold_eq_fold_parsed (arg : Nat → List Nat)
    (f : Nat → Nat → Except String Nat) (emsg : String) :
    ∀ (ks : List Nat) (w : Nat),
      arith_fold arg f emsg ks w =
        fold_parsed f emsg ((ks.map arg).filter (fun v => !v.isEmpty)) w := by
  intro ks
  induction ks with
  | nil => intro w; rfl
  | cons k r ih =>
    intro w
    unfold arith_fold
    by_cases hk : arg k = []
    · rw [if_pos hk]
      have hemp : ((arg k).isEmpty : Bool) = true := by simp [hk]
      simp only [List.map_cons, List.filter_cons, hemp, Bool.not_true]
      exact ih w
    · rw [if_neg hk]
      have hemp : (!(arg k).isEmpty : Bool) = true := by
        simp [List.isEmpty_iff, hk]
      simp only [List.map_cons, List.filter_cons, hemp, if_pos]
      cases hs : str_to_num (arg k) with
      | none => simp [fold_parsed, hs]
      | some n =>
        cases hf : f w n with
        | error e => simp [fold_parsed, hs, hf]
        | ok w2 => simp [fold_parsed, hs, hf, ih]

/-- C9: each arithmetic built-in folds over the non-empty arguments only
(`add` from 0 over arguments 1..9, `mult` from 1 over arguments 1..9;
`sub`, `div` and `mod` require a non-empty argument 1 and fold from its
value over arguments 2..9); `div` and `mod` fail on a zero divisor and all
fail on overflow, underflow, or a non-empty non-numeric argument; the
results are unsigned (`size_t`) values rendered in decimal; and the
specification's concrete examples all hold. -/
theorem claim_c9 :
    (∀ arg : Nat → List Nat, add_bi arg =
        fold_parsed add_step "add: Invalid number"
          (((List.range' 1 9).map arg).filter (fun v => !v.isEmpty)) 0) ∧
    (∀ arg : Nat → List Nat, mult_bi arg =
        fold_parsed mult_step "mult: Invalid number"
          (((List.range' 1 9).map arg).filter (fun v => !v.isEmpty)) 1) ∧
    (∀ (arg : Nat → List Nat) (w : Nat), arg 1 ≠ [] → str_to_num (arg 1) = some w →
        sub_bi arg = fold_parsed sub_step "sub: Invalid number"
          (((List.range' 2 8).map arg).filter (fun v => !v.isEmpty)) w) ∧
    (∀ (arg : Nat → List Nat) (w : Nat), arg 1 ≠ [] → str_to_num (arg 1) = some w →
        div_bi arg = fold_parsed div_step "div: Invalid number"
          (((List.range' 2 8).map arg).filter (fun v => !v.isEmpty)) w) ∧
    (∀ (arg : Nat → List Nat) (w : Nat), arg 1 ≠ [] → str_to_num (arg 1) = some w →
        mod_bi arg = fold_parsed mod_step "mod: Invalid number"
          (((List.range' 2 8).map arg).filter (fun v => !v.isEmpty)) w) ∧
    add_bi (argList ["8", "2", "4"]) = .ok 14 ∧
    mult_bi (argList ["", "5", "", "3"]) = .ok 15 ∧
    sub_bi (argList ["80", "20", "5"]) = .ok 55 ∧
    div_bi (argList ["5", "2"]) = .ok 2 ∧
    mod_bi (argList ["5", "2"]) = .ok 1 ∧
    numBytes 14 = strBytes "14" ∧ numBytes 15 = strBytes "15" ∧
    numBytes 55 = strBytes "55" ∧ numBytes 2 = strBytes "2" ∧
    numBytes 1 = strBytes "1" ∧
    div_bi (argList ["5", "0"]) = .error "div: Divide by zero" ∧
    mod_bi (argList ["5", "0"]) = .error "mod: Modulo by zero" ∧
    sub_bi (argList ["1", "2"]) = .error "sub: Integer underflow" ∧
    sub_bi (argList []) = .error "sub: Argument 1 must be used" ∧
    div_bi (argList []) = .error "div: Argument 1 must be used" ∧
    mod_bi (argList []) = .error "mod: Argument 1 must be used" ∧
    add_bi (argList ["goat"]) = .error "add: Invalid number" ∧
    add_bi (argList ["18446744073709551615", "1"]) = .error "add: Integer overflow" ∧
    mult_bi (argList ["18446744073709551615", "2"]) = .error "mult: Integer overflow" := by
  refine ⟨?_, ?_, ?_, ?_, ?_, by rfl, by rfl, by rfl, by rfl,
    by rfl, by rfl, by rfl, by rfl, by rfl, by rfl,
    by rfl, by rfl, by rfl, by rfl, by rfl, by rfl,
    by rfl, by rfl, by rfl⟩
  · intro arg
    exact arith_fold_eq_fold_parsed arg add_step "add: Invalid number" _ 0
  · intro arg
    exact arith_fold_eq_fold_parsed arg mult_step "mult: Invalid number" _ 1
  · intro arg w h1 hw
    unfold sub_bi
    rw [if_neg h1, hw]
    exact arith_fold_eq_fold_parsed arg sub_step "sub: Invalid number" _ w
  · intro arg w h1 hw
    unfold div_bi
    rw [if_neg h1, hw]
    exact arith_fold_eq_fold_parsed arg div_step "div: Invalid number" _ w
  · intro arg w h1 hw
    unfold mod_bi
    rw [if_neg h1, hw]
    exact arith_fold_eq_fold_parsed arg mod_step "mod: Invalid number" _ w

/-- Witness for `claim_c9` at concrete arguments. -/
theorem claim_c9_witness :
    sub_bi (argList ["80", "20", "5"]) =
      fold_parsed sub_step "sub: Invalid number"
        (((List.range' 2 8).map (argList ["80", "20", "5"])).filter
          (fun v => !v.isEmpty)) 80 ∧
    div_bi (argList ["5", "2"]) =
      fold_parsed div_step "div: Invalid number"
        (((List.range' 2 8).map (argList ["5", "2"])).filter
          (fun v => !v.isEmpty)) 5 ∧
    mod_bi (argList ["5", "2"]) =
      fold_parsed mod_step "mod: Invalid number"
        (((List.range' 2 8).map (argList ["5", "2"])).filter
          (fun v => !v.isEmpty)) 5 := by
  refine ⟨?_, ?_, ?_⟩
  · exact claim_c9.2.2.1 (argList ["80", "20", "5"]) 80 (by decide) (by decide)
  · exact claim_c9.2.2.2.1 (argList ["5", "2"]) 5 (by decide) (by decide)
  · exact claim_c9.2.2.2.2.1 (argList ["5", "2"]) 5 (by decide) (by decide)

/-!
## C5: `sub_args` parameter substitution
-/

/-- C5: `sub_args` replaces each `$d` (`d` in 1..9) by the collected
contents of argument buffer `d` (empty when the buffer is NULL), passes a
`$` followed by `0` or a non-digit through unchanged (the following byte is
then processed normally, so there is no `$0` expansion), and copies every
other byte unchanged; illustrated on the specification's example. -/
theorem claim_c5 :
    (∀ (ab : List (Option (List Nat))) (d : Nat) (rest : List Nat),
      isdigitB d = true → d ≠ 48 →
      sub_args ab (36 :: d :: rest) =
        (ab.getD (d - 48) none).getD [] ++ sub_args ab rest) ∧
    (∀ (ab : List (Option (List Nat))) (c : Nat) (rest : List Nat),
      ¬(isdigitB c = true ∧ c ≠ 48) →
      sub_args ab (36 :: c :: rest) = 36 :: sub_args ab (c :: rest)) ∧
    (∀ (ab : List (Option (List Nat))) (c : Nat) (rest : List Nat),
      c ≠ 36 → sub_args ab (c :: rest) = c :: sub_args ab rest) ∧
    (∀ ab : List (Option (List Nat)),
      sub_args ab [] = [] ∧ sub_args ab [36] = [36]) ∧
    sub_args [none, some (strBytes "goat"), some (strBytes "mice"), none,
        none, none, none, none, none, none]
      (strBytes "$1 and $2") = strBytes "goat and mice" ∧
    sub_args [none, some (strBytes "goat"), none, none, none, none, none,
        none, none, none]
      (strBytes "$0 $x $$1 $") = strBytes "$0 $x $goat $" := by
  have estep : ∀ (ab : List (Option (List Nat))) (h : Nat) (r2 : List Nat),
      sub_args ab (36 :: h :: r2) =
        if isdigitB h && decide (h ≠ 48) then
          (ab.getD (h - 48) none).getD [] ++ sub_args ab r2
        else 36 :: sub_args ab (h :: r2) := fun _ _ _ => rfl
  refine ⟨?_, ?_, ?_, fun ab => ⟨rfl, rfl⟩, by rfl, by rfl⟩
  · intro ab d rest hd hd8
    have hg : (isdigitB d && decide (d ≠ 48)) = true := by simp [hd, hd8]
    rw [estep, if_pos hg]
  · intro ab c rest hc
    have hg : ¬((isdigitB c && decide (c ≠ 48)) = true) := by
      intro hcontra
      simp only [Bool.and_eq_true, decide_eq_true_eq] at hcontra
      exact hc hcontra
    rw [estep, if_neg hg]
  · intro ab c rest hc
    cases rest <;> simp [sub_args, hc]

/-- Witness for `claim_c5` at concrete bytes. -/
theorem claim_c5_witness :
    sub_args [none, some [103]] (36 :: 49 :: []) =
      (([none, some [103]] : List (Option (List Nat))).getD 1 none).getD [] ++
        sub_args [none, some [103]] [] ∧
    sub_args [none, some [103]] (36 :: 48 :: []) =
      36 :: sub_args [none, some [103]] [48] ∧
    sub_args [none, some [103]] (97 :: []) = 97 :: sub_args [none, some [103]] [] := by
  refine ⟨?_, ?_, ?_⟩
  · exact claim_c5.1 [none, some [103]] 49 [] (by decide) (by decide)
  · exact claim_c5.2.1 [none, some [103]] 48 [] (by decide)
  · exact claim_c5.2.2.1 [none, some [103]] 97 [] (by decide)

/-!
## C6: the `translit` map is one slot short
-/

/-- C6: the map is declared `int map[UCHAR_MAX]` with `UCHAR_MAX = 255`, so
it has 255 slots (indices 0..254), each initialized to `-1`; the slot for
byte value 255 does not exist, and applying `translit` to a subject string
containing byte 255 reads past the end of the array (modelled as the
out-of-bounds result `none`), contradicting the claim that every byte value
of the source string reads an initialized, in-bounds slot. -/
theorem claim_c6_code_bug :
    UCHAR_MAX = 255 ∧
    translit_init_map.length = 255 ∧
    ((List.range 255).all
      (fun k => mapRead translit_init_map k == some (-1))) = true ∧
    mapRead translit_init_map 255 = none ∧
    translit_bi [255] (strBytes "a") (strBytes "b") = none ∧
    translit_bi (strBytes "bananas") (strBytes "abcs") (strBytes "xyz") =
      some (strBytes "yxnxnx") := by
  refine ⟨by rfl, by rfl, by rfl, by rfl, by rfl, by rfl⟩

/-!
## C7: `undivert` with no arguments
-/

/-- C7, amended: when the active diversion is 0, `undivert` without
arguments flushes diversions 0 through 9 to standard output in ascending
order and empties each of them (diversion 10 is untouched); when the active
diversion is non-zero the call is instead a fatal error, so the claim does
not hold for every engine state. -/
theorem claim_c7_amended (s : M4State) (hlen : s.diversion.length = 11)
    (hact : s.act_div = 0) :
    ∃ s2, processBiNoArgs s (strBytes "undivert") = .cont s2 ∧
      s2.sout = s.sout ++ DIV s 0 ++ DIV s 1 ++ DIV s 2 ++ DIV s 3 ++
        DIV s 4 ++ DIV s 5 ++ DIV s 6 ++ DIV s 7 ++ DIV s 8 ++ DIV s 9 ∧
      (∀ k, k < 10 → DIV s2 k = []) ∧ DIV s2 10 = DIV s 10 ∧
      s2.diversion.length = 11 := by
  obtain ⟨inp, qon, qd, lq, rq, ht, stk, divs, act, so, se, fs⟩ := s
  simp only at hact hlen
  subst hact
  rcases divs with _ | ⟨a0, _ | ⟨a1, _ | ⟨a2, _ | ⟨a3, _ | ⟨a4, _ | ⟨a5,
    _ | ⟨a6, _ | ⟨a7, _ | ⟨a8, _ | ⟨a9, _ | ⟨a10, _ | ⟨a11, t⟩⟩⟩⟩⟩⟩⟩⟩⟩⟩⟩⟩ <;>
    simp at hlen
  refine ⟨_, rfl, ?_, ?_, ?_, ?_⟩
  · rfl
  · intro k hk
    interval_cases k <;> rfl
  · rfl
  · rfl

/-- C7, counterexample to the claim as stated: in an engine state whose
active diversion is 1, `undivert` with no arguments is a fatal error and
flushes nothing (diversion 2 keeps its text, standard output gets none). -/
theorem claim_c7_counterexample :
    stepResIsQuit (processBiNoArgs c7State (strBytes "undivert")) = true ∧
    (stepResState (processBiNoArgs c7State (strBytes "undivert"))).sout = [] ∧
    DIV (stepResState (processBiNoArgs c7State (strBytes "undivert"))) 2 =
      strBytes "hi" ∧
    DIV c7State 2 = strBytes "hi" := by
  refine ⟨by rfl, by rfl, by rfl, by rfl⟩

/-- Witness for `claim_c7_amended` at the initial state. -/
theorem claim_c7_amended_witness :
    ∃ s2, processBiNoArgs (initState []) (strBytes "undivert") = .cont s2 ∧
      s2.sout = (initState []).sout ++ DIV (initState []) 0 ++
        DIV (initState []) 1 ++ DIV (initState []) 2 ++ DIV (initState []) 3 ++
        DIV (initState []) 4 ++ DIV (initState []) 5 ++ DIV (initState []) 6 ++
        DIV (initState []) 7 ++ DIV (initState []) 8 ++ DIV (initState []) 9 ∧
      (∀ k, k < 10 → DIV s2 k = []) ∧ DIV s2 10 = DIV (initState []) 10 ∧
      s2.diversion.length = 11 :=
  claim_c7_amended (initState []) (by rfl) (by rfl)

/-!
## C3: exit status and the quote counter
-/

theorem foldl_OUT_DIV_stack (l : List Nat) :
    ∀ s : M4State, ((l.foldl OUT_DIV s).stack = s.stack ∧
      (l.foldl OUT_DIV s).quote_on = s.quote_on ∧
      (l.foldl OUT_DIV s).quote_depth = s.quote_depth) := by
  induction l with
  | nil => intro s; exact ⟨rfl, rfl, rfl⟩
  | cons n r ih =>
    intro s
    simpa [List.foldl_cons] using ih (OUT_DIV s n)

theorem endOfInput_code_zero_iff (s : M4State) :
    (endOfInput s).1 = 0 ↔ (s.stack = [] ∧ s.quote_on = false) := by
  unfold endOfInput
  cases hstk : s.stack with
  | cons f r => simp
  | nil =>
    by_cases hq : s.quote_on
    · simp [hq]
    · simp [hq]

theorem endOfInput_state_zero (s : M4State) (h : (endOfInput s).1 = 0) :
    (endOfInput s).2.stack = [] ∧ (endOfInput s).2.quote_on = false := by
  obtain ⟨hstk, hq⟩ := (endOfInput_code_zero_iff s).mp h
  unfold endOfInput
  rw [hstk]
  simp only [hq, Bool.false_eq_true, if_false]
  have hfold := foldl_OUT_DIV_stack (List.range 10) s
  constructor
  · show (UNDIVERT_ALL s).stack = []
    unfold UNDIVERT_ALL
    rw [hfold.1, hstk]
  · show (UNDIVERT_ALL s).quote_on = false
    unfold UNDIVERT_ALL
    rw [hfold.2.1, hq]

/-- C3, amended: the shutdown path exits with status 0 exactly when the
call stack is empty and the `quote_on` flag is off, and every terminating
run that exits 0 does so with an empty stack and `quote_on` off.  The exit
status does not consult `quote_depth`: `quote_depth` is a `size_t` that an
unmatched right quote at depth 0 wraps to `2^64 - 1` while `quote_on`
stays off, so `quote_depth ≠ 0` at end of input does not force a non-zero
status. -/
theorem claim_c3_amended :
    (∀ s : M4State,
      (endOfInput s).1 = 0 ↔ (s.stack = [] ∧ s.quote_on = false)) ∧
    (∀ (f : Nat) (s : M4State) (c : Nat) (st : List Frame) (qo : Bool),
      (run f s).map (fun r => (r.1, r.2.stack, r.2.quote_on)) = some (c, st, qo) →
      c = 0 → st = [] ∧ qo = false) := by
  refine ⟨endOfInput_code_zero_iff, ?_⟩
  intro f
  induction f with
  | zero => intro s c st qo h; simp [run] at h
  | succ n ih =>
    intro s c st qo h hc
    rw [run] at h
    cases hstep : step s with
    | cont s2 =>
      rw [hstep] at h
      exact ih s2 c st qo h hc
    | eoi s2 =>
      rw [hstep] at h
      have h4 : ((endOfInput s2).1, (endOfInput s2).2.stack,
          (endOfInput s2).2.quote_on) = (c, st, qo) := Option.some.inj h
      have hc2 : (endOfInput s2).1 = c := congrArg Prod.fst h4
      have hst : (endOfInput s2).2.stack = st := congrArg (fun p => p.2.1) h4
      have hqo : (endOfInput s2).2.quote_on = qo := congrArg (fun p => p.2.2) h4
      rw [← hst, ← hqo]
      exact endOfInput_state_zero s2 (hc2.trans hc)
    | quit s2 =>
      rw [hstep] at h
      have h4 : ((1 : Nat), s2.stack, s2.quote_on) = (c, st, qo) :=
        Option.some.inj h
      have hc2 : (1 : Nat) = c := congrArg Prod.fst h4
      omega

/-- C3, counterexample to the claim as stated: the input consisting of a
single right-quote byte (`'`) terminates with exit status 0 although
processing ends with `quote_depth = 2^64 - 1 ≠ 0` (the `size_t` decrement
of 0 wraps) and the engine performs a clean shutdown. -/
theorem claim_c3_counterexample :
    (run 2 (initState [39])).map (fun r => (r.1, r.2.quote_depth)) =
      some (0, SIZE_MAX) ∧
    SIZE_MAX ≠ 0 ∧
    (run 2 (initState [39])).map (fun r => r.2.stack.isEmpty) = some true := by
  refine ⟨by rfl, by decide, by rfl⟩

/-- Witness for `claim_c3_amended` at concrete runs. -/
theorem claim_c3_amended_witness :
    (([] : List Frame) = [] ∧ (false : Bool) = false) ∧
    ((endOfInput (initState [])).1 = 0 ↔
      ((initState []).stack = [] ∧ (initState []).quote_on = false)) := by
  constructor
  · exact claim_c3_amended.2 2 (initState [39]) 0 [] false (by rfl) rfl
  · exact claim_c3_amended.1 (initState [])

/-!
## C10: a partial identifier at end of input is discarded
-/

theorem collectIdent_all_none :
    ∀ (r acc : List Nat), (∀ b ∈ r, isIdentCont b = true) →
      collectIdent acc r = none := by
  intro r
  induction r with
  | nil => intro acc _; rfl
  | cons y t ih =>
    intro acc hall
    unfold collectIdent
    rw [if_pos (hall y (List.mem_cons_self _ _))]
    exact ih _ (fun b hb => hall b (List.mem_cons_of_mem _ hb))

theorem getword_ident_none (w : List Nat) (hw : w ≠ [])
    (hstart : isIdentStart (w.headD 0) = true)
    (hcont : ∀ b ∈ w, isIdentCont b = true) : getword w = none := by
  cases w with
  | nil => exact absurd rfl hw
  | cons x rest =>
    have heq : getword (x :: rest) =
        if isIdentStart x = true then collectIdent [x] rest
        else some ([x], rest) := rfl
    rw [heq, if_pos (by simpa using hstart)]
    exact collectIdent_all_none rest [x]
      (fun b hb => hcont b (List.mem_cons_of_mem _ hb))

theorem step_eoi_of_getword_none (s : M4State) (h : getword s.input = none) :
    step s = .eoi { OUT_DIV s 0 with input := [] } := by
  have h2 : getword (OUT_DIV s 0).input = none := h
  unfold step
  simp only [h2]

/-- C10: when the remaining input is a non-empty run of identifier bytes
beginning with a letter or underscore (so end of input strikes while the
tokenizer is still collecting the identifier), the engine behaves exactly
as if the remaining input were empty: the partial identifier is discarded —
it reaches no diversion or argument buffer and no symbol-table lookup — and
the run goes directly to shutdown. -/
theorem claim_c10 (f : Nat) (s : M4State) (w : List Nat)
    (hin : s.input = w) (hw : w ≠ [])
    (hstart : isIdentStart (w.headD 0) = true)
    (hcont : ∀ b ∈ w, isIdentCont b = true) :
    run f s = run f { s with input := [] } := by
  cases f with
  | zero => rfl
  | succ n =>
    have hgw : getword s.input = none := by
      rw [hin]; exact getword_ident_none w hw hstart hcont
    have h1 := step_eoi_of_getword_none s hgw
    have h2 := step_eoi_of_getword_none { s with input := [] } rfl
    rw [run, run, h1, h2]
    have hstates : ({ OUT_DIV s 0 with input := ([] : List Nat) } : M4State) =
        { OUT_DIV { s with input := ([] : List Nat) } 0 with input := [] } := by
      cases s
      rfl
    rw [hstates]

/-- Witness for `claim_c10`: the input `"ab"` runs exactly like the empty
input. -/
theorem claim_c10_witness :
    run 3 (initState [97, 98]) = run 3 { initState [97, 98] with input := [] } :=
  claim_c10 3 (initState [97, 98]) [97, 98] rfl (by decide) (by decide)
    (by decide)

/-!
## C4: pass-through of streams without macro invocations
-/

theorem collectIdent_some :
    ∀ (r acc tok rem : List Nat), collectIdent acc r = some (tok, rem) →
      tok ++ rem = acc ++ r ∧ (acc ≠ [] → tok ≠ []) := by
  intro r
  induction r with
  | nil => intro acc tok rem h; simp [collectIdent] at h
  | cons y t ih =>
    intro acc tok rem h
    have he : collectIdent acc (y :: t) =
        if isIdentCont y = true then collectIdent (acc ++ [y]) t
        else some (acc, y :: t) := rfl
    rw [he] at h
    split_ifs at h with hy
    · obtain ⟨h1, h2⟩ := ih (acc ++ [y]) tok rem h
      refine ⟨by simpa using h1, fun _ => h2 (by simp)⟩
    · have h3 := Option.some.inj h
      cases h3
      exact ⟨rfl, fun ha => ha⟩

theorem getword_some {l tok l2 : List Nat} (h : getword l = some (tok, l2)) :
    tok ++ l2 = l ∧ tok ≠ [] := by
  cases l with
  | nil => simp [getword] at h
  | cons x rest =>
    have he : getword (x :: rest) =
        if isIdentStart x = true then collectIdent [x] rest
        else some ([x], rest) := rfl
    rw [he] at h
    split_ifs at h with hx
    · obtain ⟨h1, h2⟩ := collectIdent_some rest [x] tok l2 h
      exact ⟨by simpa using h1, h2 (by simp)⟩
    · have h3 := Option.some.inj h
      cases h3
      exact ⟨rfl, by simp⟩

theorem getword_shrinks {l tok l2 : List Nat}
    (h : getword l = some (tok, l2)) : l2.length < l.length := by
  obtain ⟨h1, h2⟩ := getword_some h
  have : tok.length + l2.length = l.length := by
    rw [← h1, List.length_append]
  have : tok.length ≠ 0 := fun hz => h2 (List.length_eq_zero.mp hz)
  omega

theorem tokAux_getword_none (l : List Nat) (h : getword l = none) :
    ∀ k, tokAux k l = ([], l) := by
  intro k
  cases k with
  | zero => rfl
  | succ m =>
    have he : tokAux (m + 1) l =
        match getword l with
        | none => ([], l)
        | some (tok, l2) =>
          let p := tokAux m l2
          (tok :: p.1, p.2) := rfl
    rw [he, h]

theorem tokAux_stable :
    ∀ (n : Nat) (l : List Nat), l.length ≤ n → tokAux n l = tokAux l.length l := by
  intro n
  induction n using Nat.strongRecOn with
  | ind n ih =>
    intro l hl
    cases n with
    | zero =>
      have hz : l = [] := List.length_eq_zero.mp (Nat.le_zero.mp hl)
      rw [hz]
      rfl
    | succ m =>
      cases hg : getword l with
      | none =>
        rw [tokAux_getword_none l hg (m + 1), tokAux_getword_none l hg l.length]
      | some pair =>
        obtain ⟨tok, l2⟩ := pair
        have hdec : l2.length < l.length := getword_shrinks hg
        have hlpos : l.length ≠ 0 := by
          intro hz
          rw [List.length_eq_zero.mp hz] at hg
          simp [getword] at hg
        obtain ⟨k, hk⟩ : ∃ k, l.length = k + 1 := ⟨l.length - 1, by omega⟩
        have he : ∀ j, tokAux (j + 1) l =
            match getword l with
            | none => ([], l)
            | some (tok2, r2) =>
              let p := tokAux j r2
              (tok2 :: p.1, p.2) := fun j => rfl
        rw [hk, he m, he k, hg]
        have hm := ih m (by omega) l2 (by omega)
        have hk2 := ih k (by omega) l2 (by omega)
        simp only [hm, hk2]

theorem tokenize_cons {l tok l2 : List Nat} (hg : getword l = some (tok, l2)) :
    (tokenize l).1 = tok :: (tokenize l2).1 ∧ (tokenize l).2 = (tokenize l2).2 := by
  have hdec : l2.length < l.length := getword_shrinks hg
  have hlpos : l.length ≠ 0 := by
    intro hz
    rw [List.length_eq_zero.mp hz] at hg
    simp [getword] at hg
  obtain ⟨k, hk⟩ : ∃ k, l.length = k + 1 := ⟨l.length - 1, by omega⟩
  have he : tokAux (k + 1) l =
      match getword l with
      | none => ([], l)
      | some (tok2, r2) =>
        let p := tokAux k r2
        (tok2 :: p.1, p.2) := rfl
  have hs : tokAux k l2 = tokenize l2 := tokAux_stable k l2 (by omega)
  unfold tokenize
  rw [hk, he, hg]
  simp only [hs]
  exact ⟨rfl, rfl⟩

theorem getword_some_of_clean (l : List Nat) (hl : l ≠ [])
    (hclean : (tokenize l).2 = []) :
    ∃ tok l2, getword l = some (tok, l2) := by
  cases hg : getword l with
  | some p =>
    obtain ⟨a, b⟩ := p
    exact ⟨a, b, rfl⟩
  | none =>
    exfalso
    have hz := tokAux_getword_none l hg l.length
    unfold tokenize at hclean
    rw [hz] at hclean
    exact hl hclean

theorem putOut_empty_stack (s : M4State) (t : List Nat) (hstk : s.stack = []) :
    putOut s t =
      { s with diversion := s.diversion.set s.act_div (DIV s s.act_div ++ t) } := by
  obtain ⟨inp, qon, qd, lq, rq, ht, stk, divs, act, so, se, fs⟩ := s
  simp only at hstk
  subst hstk
  rfl

theorem endOfInput_zero_eq (s : M4State) (hstk : s.stack = [])
    (hq : s.quote_on = false) : endOfInput s = (0, UNDIVERT_ALL s) := by
  obtain ⟨inp, qon, qd, lq, rq, ht, stk, divs, act, so, se, fs⟩ := s
  simp only at hstk hq
  subst hstk
  subst hq
  rfl

theorem UNDIVERT_ALL_spec (s : M4State) (hdlen : s.diversion.length = 11) :
    (UNDIVERT_ALL s).sout = s.sout ++ DIV s 0 ++ DIV s 1 ++ DIV s 2 ++
      DIV s 3 ++ DIV s 4 ++ DIV s 5 ++ DIV s 6 ++ DIV s 7 ++ DIV s 8 ++
      DIV s 9 := by
  obtain ⟨inp, qon, qd, lq, rq, ht, stk, divs, act, so, se, fs⟩ := s
  simp only at hdlen
  rcases divs with _ | ⟨a0, _ | ⟨a1, _ | ⟨a2, _ | ⟨a3, _ | ⟨a4, _ | ⟨a5,
    _ | ⟨a6, _ | ⟨a7, _ | ⟨a8, _ | ⟨a9, _ | ⟨a10, _ | ⟨a11, t⟩⟩⟩⟩⟩⟩⟩⟩⟩⟩⟩⟩ <;>
    simp at hdlen
  rfl

@[simp] theorem OUT_DIV_input (s : M4State) (n : Nat) :
    (OUT_DIV s n).input = s.input := rfl

@[simp] theorem OUT_DIV_quote_on (s : M4State) (n : Nat) :
    (OUT_DIV s n).quote_on = s.quote_on := rfl

@[simp] theorem OUT_DIV_quote_depth (s : M4State) (n : Nat) :
    (OUT_DIV s n).quote_depth = s.quote_depth := rfl

@[simp] theorem OUT_DIV_left_quote (s : M4State) (n : Nat) :
    (OUT_DIV s n).left_quote = s.left_quote := rfl

@[simp] theorem OUT_DIV_right_quote (s : M4State) (n : Nat) :
    (OUT_DIV s n).right_quote = s.right_quote := rfl

@[simp] theorem OUT_DIV_ht (s : M4State) (n : Nat) :
    (OUT_DIV s n).ht = s.ht := rfl

@[simp] theorem OUT_DIV_stack (s : M4State) (n : Nat) :
    (OUT_DIV s n).stack = s.stack := rfl

@[simp] theorem OUT_DIV_act_div (s : M4State) (n : Nat) :
    (OUT_DIV s n).act_div = s.act_div := rfl

@[simp] theorem OUT_DIV_serr (s : M4State) (n : Nat) :
    (OUT_DIV s n).serr = s.serr := rfl

@[simp] theorem OUT_DIV_fsys (s : M4State) (n : Nat) :
    (OUT_DIV s n).fsys = s.fsys := rfl

theorem OUT_DIV_sout (s : M4State) (n : Nat) :
    (OUT_DIV s n).sout = s.sout ++ DIV s n := rfl

theorem OUT_DIV_diversion (s : M4State) (n : Nat) :
    (OUT_DIV s n).diversion = s.diversion.set n [] := rfl

theorem step_passthrough (s : M4State) (tok inp2 : List Nat)
    (hg : getword s.input = some (tok, inp2))
    (hstk : s.stack = []) (hq : s.quote_on = false)
    (h0 : (0 : Nat) ∉ tok)
    (hlq : tok ≠ [s.left_quote]) (hrq : tok ≠ [s.right_quote])
    (hmac : isMacroL s.ht tok = none) :
    step s = .cont (putOut { OUT_DIV s 0 with input := inp2 } tok) := by
  unfold step
  simp only [OUT_DIV_input, OUT_DIV_quote_on, OUT_DIV_quote_depth,
    OUT_DIV_left_quote, OUT_DIV_right_quote, OUT_DIV_ht, OUT_DIV_stack,
    OUT_DIV_act_div, OUT_DIV_serr, OUT_DIV_fsys, hg, cstr_eq_self h0,
    hq, hstk, hmac, Bool.false_eq_true, if_false]
  rw [if_neg hlq, if_neg hrq]

theorem run_passthrough :
    ∀ (n : Nat) (l : List Nat) (s : M4State),
      s.input = l → l.length < n → s.stack = [] → s.quote_on = false →
      s.act_div = 0 → s.diversion.length = 11 →
      (∀ k, 1 ≤ k → k ≤ 9 → DIV s k = []) →
      (0 : Nat) ∉ l → s.left_quote ∉ l → s.right_quote ∉ l →
      (tokenize l).2 = [] →
      (∀ t ∈ (tokenize l).1, isMacroL s.ht t = none) →
      ∃ t2, run n s = some (0, t2) ∧ t2.sout = s.sout ++ DIV s 0 ++ l := by
  intro n
  induction n using Nat.strongRecOn with
  | ind n ih =>
    intro l s hin hlen hstk hq hact hdlen hdivs h0 hlq hrq hclean hmac
    cases n with
    | zero => omega
    | succ m =>
      by_cases hl : l = []
      · subst hl
        have h1 := step_eoi_of_getword_none s (by rw [hin]; rfl)
        rw [run, h1]
        set s1 : M4State := { OUT_DIV s 0 with input := [] } with hs1
        have hstk1 : s1.stack = [] := by simp [hs1, hstk]
        have hq1 : s1.quote_on = false := by simp [hs1, hq]
        have hdlen1 : s1.diversion.length = 11 := by
          simp [hs1, OUT_DIV_diversion, hdlen]
        refine ⟨UNDIVERT_ALL s1, ?_, ?_⟩
        · show some (endOfInput s1) = some (0, UNDIVERT_ALL s1)
          rw [endOfInput_zero_eq s1 hstk1 hq1]
        · rw [UNDIVERT_ALL_spec s1 hdlen1]
          have hd0 : DIV s1 0 = [] := by
            show ((s.diversion.set 0 []).getD 0 []) = []
            exact getD_set_self s.diversion 0 [] [] (by omega)
          have hdk : ∀ k, 1 ≤ k → k ≤ 9 → DIV s1 k = [] := by
            intro k hk1 hk9
            show ((s.diversion.set 0 []).getD k []) = []
            rw [getD_set_ne s.diversion 0 k [] [] (by omega)]
            exact hdivs k hk1 hk9
          have hsout1 : s1.sout = s.sout ++ DIV s 0 := rfl
          rw [hsout1, hd0, hdk 1 (by omega) (by omega),
            hdk 2 (by omega) (by omega), hdk 3 (by omega) (by omega),
            hdk 4 (by omega) (by omega), hdk 5 (by omega) (by omega),
            hdk 6 (by omega) (by omega), hdk 7 (by omega) (by omega),
            hdk 8 (by omega) (by omega), hdk 9 (by omega) (by omega)]
          simp
      · obtain ⟨tok, l2, hg⟩ := getword_some_of_clean l hl hclean
        obtain ⟨hdecomp, htokne⟩ := getword_some hg
        have htoksub : ∀ b ∈ tok, b ∈ l := by
          intro b hb
          rw [← hdecomp]
          exact List.mem_append_left _ hb
        have hl2sub : ∀ b ∈ l2, b ∈ l := by
          intro b hb
          rw [← hdecomp]
          exact List.mem_append_right _ hb
        have h0tok : (0 : Nat) ∉ tok := fun hb => h0 (htoksub 0 hb)
        have htlq : tok ≠ [s.left_quote] := by
          intro he
          exact hlq (htoksub s.left_quote (he ▸ List.mem_cons_self _ _))
        have htrq : tok ≠ [s.right_quote] := by
          intro he
          exact hrq (htoksub s.right_quote (he ▸ List.mem_cons_self _ _))
        obtain ⟨htokens, hleft⟩ := tokenize_cons hg
        have hmactok : isMacroL s.ht tok = none := by
          apply hmac
          rw [htokens]
          exact List.mem_cons_self _ _
        have h1 := step_passthrough s tok l2 (by rw [hin]; exact hg) hstk hq
          h0tok htlq htrq hmactok
        rw [run, h1]
        set s1 : M4State := { OUT_DIV s 0 with input := l2 } with hs1
        have hstk1 : s1.stack = [] := by simp [hs1, hstk]
        have hact1 : s1.act_div = 0 := by simp [hs1, hact]
        have hdiv1 : s1.diversion = s.diversion.set 0 [] := rfl
        set s2 : M4State := { s1 with diversion := s1.diversion.set s1.act_div (DIV s1 s1.act_div ++ tok) } with hs2
        show ∃ t2, (match StepRes.cont (putOut s1 tok) with
          | StepRes.cont s3 => run m s3
          | StepRes.eoi s3 => some (endOfInput s3)
          | StepRes.quit s3 => some (1, s3)) = some (0, t2) ∧
          t2.sout = s.sout ++ DIV s 0 ++ l
        have hput : putOut s1 tok = s2 := putOut_empty_stack s1 tok hstk1
        rw [hput]
        have hin2 : s2.input = l2 := rfl
        have hstk2 : s2.stack = [] := hstk1
        have hq2 : s2.quote_on = false := by simp [hs2, hs1, hq]
        have hact2 : s2.act_div = 0 := hact1
        have hdlen2 : s2.diversion.length = 11 := by
          show (s1.diversion.set s1.act_div (DIV s1 s1.act_div ++ tok)).length = 11
          rw [List.length_set, hdiv1, List.length_set]
          exact hdlen
        have hdivs2 : ∀ k, 1 ≤ k → k ≤ 9 → DIV s2 k = [] := by
          intro k hk1 hk9
          show ((s1.diversion.set s1.act_div (DIV s1 s1.act_div ++ tok)).getD k []) = []
          rw [hact1, getD_set_ne _ 0 k _ _ (by omega), hdiv1,
            getD_set_ne _ 0 k _ _ (by omega)]
          exact hdivs k hk1 hk9
        have hht2 : s2.ht = s.ht := rfl
        have hclean2 : (tokenize l2).2 = [] := by rw [← hleft]; exact hclean
        have hmac2 : ∀ t ∈ (tokenize l2).1, isMacroL s2.ht t = none := by
          intro t ht
          rw [hht2]
          apply hmac
          rw [htokens]
          exact List.mem_cons_of_mem _ ht
        have hlen2 : l2.length < m := by
          have := getword_shrinks hg
          omega
        have hlq2 : s2.left_quote ∉ l2 := by
          show s.left_quote ∉ l2
          exact fun hb => hlq (hl2sub s.left_quote hb)
        have hrq2 : s2.right_quote ∉ l2 := by
          show s.right_quote ∉ l2
          exact fun hb => hrq (hl2sub s.right_quote hb)
        obtain ⟨t2, hrun, hsout⟩ := ih m (by omega) l2 s2 hin2 hlen2 hstk2 hq2
          hact2 hdlen2 hdivs2 (fun hb => h0 (hl2sub 0 hb)) hlq2 hrq2
          hclean2 hmac2
        refine ⟨t2, hrun, ?_⟩
        rw [hsout]
        have hsout2 : s2.sout = s.sout ++ DIV s 0 := rfl
        have hd02 : DIV s2 0 = tok := by
          show ((s1.diversion.set s1.act_div (DIV s1 s1.act_div ++ tok)).getD 0 []) = tok
          have hlen1 : (0 : Nat) < s1.diversion.length := by
            rw [hdiv1, List.length_set, hdlen]
            omega
          have hd1z : DIV s1 0 = [] := by
            show ((s.diversion.set 0 []).getD 0 []) = []
            exact getD_set_self s.diversion 0 [] [] (by omega)
          rw [hact1, hd1z, getD_set_self _ 0 _ [] hlen1]
          simp
        rw [hsout2, hd02, ← hdecomp]
        simp

/-- C4, amended: a NUL-free input byte stream that contains no quote byte,
no identifier token that resolves in the symbol table, and whose final
token is not an identifier cut off by end of input, passes through to
standard output unchanged, byte for byte, with exit status 0 (the active
diversion is 0 and no built-in is called, since no token resolves to a
macro).  Quote bytes are consumed by the quoting machinery, NUL bytes are
dropped by the C-string handling of tokens, and a trailing identifier cut
off by end of input is discarded, so those are excluded. -/
theorem claim_c4_amended (l : List Nat)
    (h0 : (0 : Nat) ∉ l) (hlq : (96 : Nat) ∉ l) (hrq : (39 : Nat) ∉ l)
    (hclean : (tokenize l).2 = [])
    (hmac : ∀ t ∈ (tokenize l).1, isMacroL initHt t = none) :
    ∃ t2, run (l.length + 1) (initState l) = some (0, t2) ∧ t2.sout = l := by
  have hdivs : ∀ k, 1 ≤ k → k ≤ 9 → DIV (initState l) k = [] := by
    intro k hk1 hk9
    interval_cases k <;> rfl
  obtain ⟨t2, h1, h2⟩ := run_passthrough (l.length + 1) l (initState l) rfl
    (by omega) rfl rfl rfl rfl hdivs h0 hlq hrq hclean hmac
  refine ⟨t2, h1, ?_⟩
  rw [h2]
  rfl

/-- C4, counterexample to the claim as stated: the input `"x"` (a single
identifier byte, matching no symbol-table entry, with diversion 0 active
and no built-in called) produces empty standard output, not `"x"`: end of
input strikes while the identifier is still being collected and the token
is discarded. -/
theorem claim_c4_counterexample :
    (run 2 (initState [120])).map (fun r => (r.1, r.2.sout)) = some (0, []) ∧
    ([] : List Nat) ≠ [120] := by
  exact ⟨by rfl, by decide⟩

/-- Witness for `claim_c4_amended` on a concrete stream. -/
theorem claim_c4_amended_witness :
    ∃ t2, run ((strBytes "hi, world ").length + 1)
        (initState (strBytes "hi, world ")) = some (0, t2) ∧
      t2.sout = strBytes "hi, world " :=
  claim_c4_amended (strBytes "hi, world ") (by decide) (by decide)
    (by decide) (by decide) (by decide)
